import Mathlib

/-!
Shallow embedding of `src/scrapper.py`: a single-pass ETL script that fetches
Jira issues, maps them to git commits by issue-key regex matches in commit
messages, and extracts per-issue effort features.

Timestamps are modelled as rationals (seconds since an arbitrary epoch), since
the Python code parses ISO datetimes and only ever subtracts them and divides
by 3600 to obtain hours.
-/

namespace Scrapper

/-- A single changelog item: `item['field']` and `item['toString']` are the
only keys the code reads. -/
structure Item where
  field : String
  toString : String
  deriving DecidableEq

/-- A changelog history entry: `history['created']` (parsed timestamp, in
seconds) and `history['items']`. -/
structure History where
  created : Rat
  items : List Item
  deriving DecidableEq

/-- The subset of a Jira issue the extractor reads: `key`,
`fields['issuetype']['name']`, `fields['priority']['name']`,
`fields['created']` (parsed timestamp), `fields['resolutiondate']` (optional),
`fields['description']` (optional), `fields['comment']['total']` (optional),
and `changelog['histories']` (a missing changelog is modelled as `[]`, which
is what the code's `.get('changelog', \x7b\x7d)` produces downstream). -/
structure Issue where
  key : String
  issuetype : String
  priority : String
  created : Rat
  resolutiondate : Option Rat
  description : Option String
  comment : Option Nat
  changelog : List History
  deriving DecidableEq

/-- The subset of a git commit the code reads: `commit.message`,
`commit.stats.total['insertions']`, `commit.stats.total['deletions']`, and
the changed-file list `commit.stats.files` (only its length is used). -/
structure Commit where
  message : String
  insertions : Nat
  deletions : Nat
  files : List String
  deriving DecidableEq

/-- One output record of `FeatureExtractor.extract`, with the same field
names as the Python row dict. -/
structure FeatureRow where
  issue_id : String
  issue_type : String
  priority : String
  description_length : Nat
  num_comments : Nat
  time_to_resolve_hours : Option Rat
  time_in_progress_hours : Option Rat
  lines_added : Nat
  lines_deleted : Nat
  lines_updated_est : Nat
  total_files_changed : Nat
  num_commits : Nat
  deriving DecidableEq

/-- Python's `str.lower()` restricted to the ASCII case mapping, which covers
every status string the code compares. -/
def lowerStr (s : String) : String :=
  String.mk (s.toList.map Char.toLower)

/-- The terminal-status test `item['toString'].lower() in
\x7b'done', 'resolved', 'closed', 'fixed'\x7d`. -/
def isTerminalStatus (s : String) : Bool :=
  ["done", "resolved", "closed", "fixed"].contains (lowerStr s)

/-- Inner loop of `get_in_progress_duration` over one history entry's items.
`created` is the enclosing history entry's timestamp; `fromT` is the current
`from_status_time`. Returns the updated `from_status_time` and, if the inner
`break` fired, `to_done_time`. -/
def scanItems (created : Rat) (fromT : Option Rat) : List Item → Option Rat × Option Rat
  | [] => (fromT, none)
  | it :: rest =>
    if it.field = "status" then
      if lowerStr it.toString = "in progress" then
        scanItems created (some created) rest
      else if isTerminalStatus it.toString && fromT.isSome then
        (fromT, some created)
      else
        scanItems created fromT rest
    else
      scanItems created fromT rest

/-- Outer loop of `get_in_progress_duration` over the histories; stops as soon
as `to_done_time` is set. -/
def scanHistories (fromT : Option Rat) : List History → Option Rat × Option Rat
  | [] => (fromT, none)
  | h :: rest =>
    match scanItems h.created fromT h.items with
    | (f, some t) => (f, some t)
    | (f, none) => scanHistories f rest

/-- `FeatureExtractor.get_in_progress_duration`: scans the changelog histories
and, when both a start and an end were recorded, returns
`(end - start).total_seconds() / 3600`. -/
def get_in_progress_duration (changelog : List History) : Option Rat :=
  match scanHistories none changelog with
  | (some s, some t) => some ((t - s) / 3600)
  | _ => none

/-- First-match lookup in an association list, the read side of a Python
dict keyed by issue id (keys are unique by construction of `appendToMap`). -/
def lookupMap : List (String × List Commit) → String → Option (List Commit)
  | [], _ => none
  | (k, v) :: rest, key => if k = key then some v else lookupMap rest key

/-- `self.issue_commit_map.get(key, [])`. -/
def lookupCommits (m : List (String × List Commit)) (key : String) : List Commit :=
  (lookupMap m key).getD []

/-- `issue_commit_map.setdefault(issue_id, []).append(commit)` on a Python
dict modelled as an insertion-ordered association list: append to the
existing entry, or add a new entry at the end. -/
def appendToMap : List (String × List Commit) → String → Commit → List (String × List Commit)
  | [], key, c => [(key, [c])]
  | (k, v) :: rest, key, c =>
    if k = key then (k, v ++ [c]) :: rest else (k, v) :: appendToMap rest key c

/-- Try to consume the character list `p` from the front of `s`; on success
return the remaining suffix of `s`. -/
def stripLeading : List Char → List Char → Option (List Char)
  | [], s => some s
  | _ :: _, [] => none
  | p :: ps, c :: cs => if p = c then stripLeading ps cs else none

/-- `re.findall` for the pattern `KEY-\d+` over a character list: scan left to
right; at each position try to match the literal pattern head `pre`
(= `KEY-`) followed by one or more digits (greedy); on a match record
`pre ++ digits` and resume after the match (non-overlapping); otherwise
advance one character. `fuel` bounds the recursion; `s.length` always
suffices because every step consumes at least one character. -/
def findAllAux (pre : List Char) : Nat → List Char → List (List Char)
  | 0, _ => []
  | _ + 1, [] => []
  | fuel + 1, c :: rest =>
    match stripLeading pre (c :: rest) with
    | some after =>
      let digits := after.takeWhile Char.isDigit
      if digits.isEmpty then findAllAux pre fuel rest
      else (pre ++ digits) :: findAllAux pre fuel (after.drop digits.length)
    | none => findAllAux pre fuel rest

/-- `re.findall(self.config.issue_key_pattern, message)` where the pattern is
`rf'(\x7bjira_key\x7d-\d+)'`. -/
def findIssueKeys (jiraKey message : String) : List String :=
  (findAllAux (jiraKey.toList ++ ['-']) message.toList.length message.toList).map
    fun cs => String.mk cs

/-- `GitRepoAnalyzer.map_issues_to_commits`: iterate the commits in traversal
order, and for every issue-key match in a commit's message append that commit
to the key's list. -/
def map_issues_to_commits (jiraKey : String) (commits : List Commit) :
    List (String × List Commit) :=
  commits.foldl
    (fun m c => (findIssueKeys jiraKey c.message).foldl (fun m2 k => appendToMap m2 k c) m)
    []

/-- The row dict built by `FeatureExtractor.extract` for one issue, from the
issue's mapped commits. Mirrors the Python line by line, including the
truthiness tests on `resolutiondate`, `description` and `comment`. -/
def mkRow (commits : List Commit) (i : Issue) : FeatureRow :=
  { issue_id := i.key
    issue_type := i.issuetype
    priority := i.priority
    description_length :=
      match i.description with
      | some s => if s.isEmpty then 0 else s.length
      | none => 0
    num_comments :=
      match i.comment with
      | some n => n
      | none => 0
    time_to_resolve_hours :=
      match i.resolutiondate with
      | some r => some ((r - i.created) / 3600)
      | none => none
    time_in_progress_hours := get_in_progress_duration i.changelog
    lines_added := (commits.map fun c => c.insertions).sum
    lines_deleted := (commits.map fun c => c.deletions).sum
    lines_updated_est :=
      min ((commits.map fun c => c.insertions).sum) ((commits.map fun c => c.deletions).sum)
    total_files_changed := (commits.map fun c => c.files.length).sum
    num_commits := commits.length }

/-- `FeatureExtractor.extract`: one pass over the issues in fetched order;
an issue whose key has no (or an empty) commit-map entry is counted as
skipped, every other issue contributes one row. Returns the rows in order
together with `skipped_no_commits`. -/
def extract (issues : List Issue) (m : List (String × List Commit)) :
    List FeatureRow × Nat :=
  match issues with
  | [] => ([], 0)
  | i :: rest =>
    let commits := lookupCommits m i.key
    let r := extract rest m
    if commits.isEmpty then (r.1, r.2 + 1) else (mkRow commits i :: r.1, r.2)

/-- The `while True` loop of `JiraClient.fetch_issues`. `respond` models the
Jira search endpoint: for an offset it yields the page's issues and the
server-reported `total`. Each iteration appends the page, then stops when
`start_at + max_results >= total`, else advances the offset by
`max_results`. Returns the accumulated issues and the list of requested
offsets. `fuel` bounds the loop (the Python loop would not terminate with
`max_results = 0`; any `fuel ≥ ⌈total / max_results⌉` reproduces it). -/
def fetchLoop {α : Type} (respond : Nat → List α × Nat) (maxResults : Nat) :
    Nat → Nat → List α × List Nat
  | 0, _ => ([], [])
  | fuel + 1, startAt =>
    let page := respond startAt
    if page.2 ≤ startAt + maxResults then (page.1, [startAt])
    else
      let rest := fetchLoop respond maxResults fuel (startAt + maxResults)
      (page.1 ++ rest.1, startAt :: rest.2)

/-- `JiraClient.fetch_issues`: run the pagination loop from offset 0. -/
def fetch_issues {α : Type} (respond : Nat → List α × Nat) (maxResults fuel : Nat) :
    List α × List Nat :=
  fetchLoop respond maxResults fuel 0

/-- The deterministic tail of the pipeline run by
`EffortDatasetBuilder.build_and_save` on an already-fetched issue list and
commit history: build the issue-commit map, then extract the feature rows. -/
def runPipeline (jiraKey : String) (issues : List Issue) (commits : List Commit) :
    List FeatureRow × Nat :=
  extract issues (map_issues_to_commits jiraKey commits)

/-- The changelog of the C1 example: [→"Open" @0, →"In Progress" @3600,
→"In Progress" @7200, →"Resolved" @10800] (T1 = 3600, T2 = 7200,
T3 = 10800 seconds, i.e. hours 1, 2 and 3). -/
def c1Changelog : List History :=
  [⟨0, [⟨"status", "Open"⟩]⟩,
   ⟨3600, [⟨"status", "In Progress"⟩]⟩,
   ⟨7200, [⟨"status", "In Progress"⟩]⟩,
   ⟨10800, [⟨"status", "Resolved"⟩]⟩]

/-- A changelog whose single history entry contains both an "In Progress"
item and a terminal item, with the terminal item first. -/
def c10Changelog : List History :=
  [⟨3600, [⟨"status", "Resolved"⟩, ⟨"status", "In Progress"⟩]⟩]

/-- A sample commit referencing issue AB-1 once. -/
def wCommit : Commit := ⟨"AB-1 fix the planner", 5, 3, ["a.txt", "b.txt"]⟩

/-- A sample resolved issue with key AB-1, created at 0, resolved at 36000
seconds (10 hours). -/
def wIssue : Issue := ⟨"AB-1", "Bug", "Major", 0, some 36000, none, none, []⟩

/-- The sample one-entry commit map for AB-1. -/
def wMap : List (String × List Commit) := [("AB-1", [wCommit])]

/-- A sample issue with every optional field absent. -/
def c6Issue : Issue := ⟨"X-1", "Task", "Minor", 0, none, none, none, []⟩

/-- A commit whose message references AB-7 twice. -/
def c7Commit : Commit := ⟨"AB-7 revert then reapply AB-7", 1, 1, []⟩

/-- A model Jira server for the C4 scenario: every response reports
`total = 2500` and carries `min 1000 (2500 - offset)` issues. -/
def c4Respond : Nat → List Unit × Nat :=
  fun off => (List.replicate (min 1000 (2500 - off)) (), 2500)

end Scrapper

namespace Scrapper

/-! ### Characterization of `extract` -/

theorem extract_rows_eq (issues : List Issue) (m : List (String × List Commit)) :
    (extract issues m).1 =
      (issues.filter fun i => !(lookupCommits m i.key).isEmpty).map
        fun i => mkRow (lookupCommits m i.key) i := by
  induction issues with
  | nil => rfl
  | cons i rest ih =>
    simp only [extract, List.filter_cons]
    cases h : (lookupCommits m i.key).isEmpty <;> simp [h, ih]

theorem extract_length_add_skipped (issues : List Issue) (m : List (String × List Commit)) :
    (extract issues m).1.length + (extract issues m).2 = issues.length := by
  induction issues with
  | nil => rfl
  | cons i rest ih =>
    simp only [extract]
    cases h : (lookupCommits m i.key).isEmpty <;> simp [h] <;> omega

theorem mem_extract_rows {issues : List Issue} {m : List (String × List Commit)}
    {row : FeatureRow} (hrow : row ∈ (extract issues m).1) :
    ∃ i ∈ issues, lookupCommits m i.key ≠ [] ∧ row = mkRow (lookupCommits m i.key) i := by
  rw [extract_rows_eq] at hrow
  obtain ⟨i, hi, hrei⟩ := List.mem_map.mp hrow
  refine ⟨i, List.mem_of_mem_filter hi, ?_, hrei.symm⟩
  have := List.of_mem_filter hi
  simpa [List.isEmpty_iff] using this

/-- C2: for every issue list and every issue-commit map, `extract` emits the
rows of exactly the issues whose key has a non-empty commit-map entry (one
row each, in order), so emitted rows + skipped issues = fetched issues and
the row count never exceeds the fetched issue count. -/
theorem c2_rows_iff_mapped_commits (issues : List Issue) (m : List (String × List Commit)) :
    (extract issues m).1 =
      (issues.filter fun i => !(lookupCommits m i.key).isEmpty).map
        (fun i => mkRow (lookupCommits m i.key) i) ∧
    (extract issues m).1.length + (extract issues m).2 = issues.length ∧
    (extract issues m).1.length ≤ issues.length := by
  refine ⟨extract_rows_eq issues m, extract_length_add_skipped issues m, ?_⟩
  have := extract_length_add_skipped issues m
  omega

/-- C3: every emitted row has `lines_updated_est = min(lines_added,
lines_deleted)`, and its `lines_added`/`lines_deleted` are the sums of
insertions/deletions over the issue's mapped commits. -/
theorem c3_lines_updated_est_min (issues : List Issue) (m : List (String × List Commit))
    (row : FeatureRow) (hrow : row ∈ (extract issues m).1) :
    row.lines_updated_est = min row.lines_added row.lines_deleted ∧
    ∃ i ∈ issues,
      row.lines_added = ((lookupCommits m i.key).map fun c => c.insertions).sum ∧
      row.lines_deleted = ((lookupCommits m i.key).map fun c => c.deletions).sum := by
  obtain ⟨i, hi, -, rfl⟩ := mem_extract_rows hrow
  exact ⟨rfl, i, hi, rfl, rfl⟩

theorem c3_lines_updated_est_min_witness :
    (mkRow [wCommit] wIssue).lines_updated_est =
      min (mkRow [wCommit] wIssue).lines_added (mkRow [wCommit] wIssue).lines_deleted ∧
    ∃ i ∈ [wIssue],
      (mkRow [wCommit] wIssue).lines_added =
        ((lookupCommits wMap i.key).map fun c => c.insertions).sum ∧
      (mkRow [wCommit] wIssue).lines_deleted =
        ((lookupCommits wMap i.key).map fun c => c.deletions).sum :=
  c3_lines_updated_est_min [wIssue] wMap (mkRow [wCommit] wIssue)
    (show mkRow [wCommit] wIssue ∈ [mkRow [wCommit] wIssue] from List.mem_singleton.mpr rfl)

/-- C5: every emitted row comes from an issue for which an absent
`resolutiondate` yields an absent `time_to_resolve_hours` (never zero), and a
present `resolutiondate` yields exactly `(resolved - created) / 3600` hours. -/
theorem c5_resolutiondate_optional (issues : List Issue) (m : List (String × List Commit))
    (row : FeatureRow) (hrow : row ∈ (extract issues m).1) :
    ∃ i ∈ issues,
      (i.resolutiondate = none → row.time_to_resolve_hours = none) ∧
      ∀ rd, i.resolutiondate = some rd →
        row.time_to_resolve_hours = some ((rd - i.created) / 3600) := by
  obtain ⟨i, hi, -, rfl⟩ := mem_extract_rows hrow
  refine ⟨i, hi, fun h => ?_, fun rd h => ?_⟩ <;> simp [mkRow, h]

theorem c5_resolutiondate_optional_witness :
    ∃ i ∈ [wIssue],
      (i.resolutiondate = none → (mkRow [wCommit] wIssue).time_to_resolve_hours = none) ∧
      ∀ rd, i.resolutiondate = some rd →
        (mkRow [wCommit] wIssue).time_to_resolve_hours = some ((rd - i.created) / 3600) :=
  c5_resolutiondate_optional [wIssue] wMap (mkRow [wCommit] wIssue)
    (show mkRow [wCommit] wIssue ∈ [mkRow [wCommit] wIssue] from List.mem_singleton.mpr rfl)

/-- C6: the row builder used by `extract` treats each missing optional field
as absent/zero and is total (no error path): a `none` description gives
`description_length = 0`, a `none` comment field gives `num_comments = 0`,
and a `none` resolution date gives an absent `time_to_resolve_hours`. -/
theorem c6_missing_optional_fields (commits : List Commit) (i : Issue) :
    (i.description = none → (mkRow commits i).description_length = 0) ∧
    (i.comment = none → (mkRow commits i).num_comments = 0) ∧
    (i.resolutiondate = none → (mkRow commits i).time_to_resolve_hours = none) := by
  refine ⟨fun h => ?_, fun h => ?_, fun h => ?_⟩ <;> simp [mkRow, h]

theorem c6_missing_optional_fields_witness :
    (mkRow [] c6Issue).description_length = 0 ∧
    (mkRow [] c6Issue).num_comments = 0 ∧
    (mkRow [] c6Issue).time_to_resolve_hours = none :=
  ⟨(c6_missing_optional_fields [] c6Issue).1 rfl,
   (c6_missing_optional_fields [] c6Issue).2.1 rfl,
   (c6_missing_optional_fields [] c6Issue).2.2 rfl⟩

/-- C9: the map-and-extract pipeline is deterministic — two runs over the
same issue list and the same commit history produce identical rows (order
and values) and identical skip counts. -/
theorem c9_deterministic (jiraKey : String) (issues : List Issue) (commits : List Commit)
    (r1 r2 : List FeatureRow × Nat)
    (h1 : r1 = runPipeline jiraKey issues commits)
    (h2 : r2 = runPipeline jiraKey issues commits) : r1 = r2 :=
  h1.trans h2.symm

theorem c9_deterministic_witness :
    runPipeline "AB" [wIssue] [wCommit] = runPipeline "AB" [wIssue] [wCommit] :=
  c9_deterministic "AB" [wIssue] [wCommit] _ _ rfl rfl

/-! ### The status-transition scan -/

/-- C1 counterexample: on the spec's own example history
[→"Open" @0, →"In Progress" @3600, →"In Progress" @7200, →"Resolved" @10800]
the code computes (T3 - T2)/3600 = 1 hour, not the claimed
(T3 - T1)/3600 = 2 hours: each later "in progress" transition overwrites
`from_status_time`. -/
theorem c1_counterexample :
    get_in_progress_duration c1Changelog = some 1 ∧
    get_in_progress_duration c1Changelog ≠ some 2 := by
  have h : get_in_progress_duration c1Changelog = some 1 := by
    show some (((10800 : Rat) - 7200) / 3600) = some 1
    norm_num
  refine ⟨h, ?_⟩
  rw [h]
  intro hc
  rw [Option.some.injEq] at hc
  norm_num at hc

/-- C1 (amended): the scan records the timestamp of the LAST transition to
"in progress" seen before the first qualifying terminal transition (each new
in-progress transition overwrites the recorded start); on a history
[→"Open" @T0, →"In Progress" @T1, →"In Progress" @T2, →"Resolved" @T3] with
T1 < T2 < T3 the computed duration is (T3 - T2) hours. -/
theorem c1_scan_uses_last_in_progress (t0 t1 t2 t3 : Rat)
    (_h12 : t1 < t2) (_h23 : t2 < t3) :
    get_in_progress_duration
      [⟨t0, [⟨"status", "Open"⟩]⟩,
       ⟨t1, [⟨"status", "In Progress"⟩]⟩,
       ⟨t2, [⟨"status", "In Progress"⟩]⟩,
       ⟨t3, [⟨"status", "Resolved"⟩]⟩] = some ((t3 - t2) / 3600) := rfl

theorem c1_scan_uses_last_in_progress_witness :
    (3600 : Rat) < 7200 ∧ (7200 : Rat) < 10800 ∧
    get_in_progress_duration c1Changelog = some (((10800 : Rat) - 7200) / 3600) :=
  ⟨by norm_num, by norm_num,
   c1_scan_uses_last_in_progress 0 3600 7200 10800 (by norm_num) (by norm_num)⟩

theorem scanItems_no_in_progress {items : List Item} (created : Rat)
    (h : ∀ it ∈ items, ¬(it.field = "status" ∧ lowerStr it.toString = "in progress")) :
    scanItems created none items = (none, none) := by
  induction items with
  | nil => rfl
  | cons it rest ih =>
    have hrest : ∀ it ∈ rest, ¬(it.field = "status" ∧ lowerStr it.toString = "in progress") :=
      fun x hx => h x (List.mem_cons_of_mem it hx)
    simp only [scanItems]
    split_ifs with hf hip hterm
    · exact absurd ⟨hf, hip⟩ (h it (List.mem_cons_self it rest))
    · simp at hterm
    · exact ih hrest
    · exact ih hrest

theorem scanHistories_skip {hs1 : List History} (rest : List History)
    (h : ∀ h' ∈ hs1, ∀ it ∈ h'.items,
      ¬(it.field = "status" ∧ lowerStr it.toString = "in progress")) :
    scanHistories none (hs1 ++ rest) = scanHistories none rest := by
  induction hs1 with
  | nil => rfl
  | cons h0 hs ih =>
    have h0items := h h0 (List.mem_cons_self h0 hs)
    have hhs : ∀ h' ∈ hs, ∀ it ∈ h'.items,
        ¬(it.field = "status" ∧ lowerStr it.toString = "in progress") :=
      fun h' hh' => h h' (List.mem_cons_of_mem h0 hh')
    simp only [List.cons_append, scanHistories, scanItems_no_in_progress h0.created h0items]
    exact ih hhs

theorem scanItems_after_in_progress {tm : Item} (created : Rat) (l2 l3 : List Item)
    (htmf : tm.field = "status") (htms : isTerminalStatus tm.toString = true) :
    scanItems created (some created) (l2 ++ tm :: l3) = (some created, some created) := by
  have htmnotip : ¬ lowerStr tm.toString = "in progress" := by
    intro he
    rw [isTerminalStatus, he] at htms
    exact absurd htms (by decide)
  induction l2 with
  | nil =>
    simp only [List.nil_append, scanItems]
    rw [if_pos htmf, if_neg htmnotip, if_pos (by rw [htms]; rfl)]
  | cons a l2 ih =>
    simp only [List.cons_append, scanItems]
    split_ifs with hf hip hterm
    · exact ih
    · rfl
    · exact ih
    · exact ih

theorem scanItems_in_progress_then_terminal {ip tm : Item} (created : Rat)
    (pre mid post : List Item) (fromT : Option Rat)
    (hfrom : fromT = none ∨ fromT = some created)
    (hipf : ip.field = "status") (hips : lowerStr ip.toString = "in progress")
    (htmf : tm.field = "status") (htms : isTerminalStatus tm.toString = true) :
    scanItems created fromT (pre ++ ip :: mid ++ tm :: post) = (some created, some created) := by
  induction pre generalizing fromT with
  | nil =>
    simp only [List.nil_append, scanItems]
    rw [if_pos hipf, if_pos hips]
    exact scanItems_after_in_progress created mid post htmf htms
  | cons a pre ih =>
    simp only [List.cons_append, scanItems]
    split_ifs with hf hip hterm
    · exact ih (some created) (Or.inr rfl)
    · rcases hfrom with rfl | rfl
      · simp at hterm
      · rfl
    · exact ih fromT hfrom
    · exact ih fromT hfrom

/-- C10 counterexample: the claim fails as stated — a single history entry
@3600 whose items are [→"Resolved", →"In Progress"] contains both an
"in progress" item and a qualifying terminal item, yet the computed
`time_in_progress_hours` is absent (None), not 0: the terminal item is
examined before any start has been recorded, so the pair never completes. -/
theorem c10_counterexample :
    get_in_progress_duration c10Changelog = none ∧
    get_in_progress_duration c10Changelog ≠ some 0 := by
  have h : get_in_progress_duration c10Changelog = none := rfl
  exact ⟨h, by rw [h]; exact fun hc => Option.noConfusion hc⟩

/-- C10 (amended): both recorded timestamps are the enclosing history
entry's creation time (items carry no timestamps of their own);
consequently, when no earlier history entry contains an "in progress" status
item and one history entry's item list contains an "in progress" status item
followed (later in the same entry) by a qualifying terminal status item, both
timestamps equal that entry's creation time and `time_in_progress_hours` is
exactly 0. -/
theorem c10_same_history_zero (hs1 hs2 : List History) (h : History)
    (pre mid post : List Item) (ip tm : Item)
    (hnone : ∀ h' ∈ hs1, ∀ it ∈ h'.items,
      ¬(it.field = "status" ∧ lowerStr it.toString = "in progress"))
    (hitems : h.items = pre ++ ip :: mid ++ tm :: post)
    (hipf : ip.field = "status") (hips : lowerStr ip.toString = "in progress")
    (htmf : tm.field = "status") (htms : isTerminalStatus tm.toString = true) :
    get_in_progress_duration (hs1 ++ h :: hs2) = some 0 := by
  rw [get_in_progress_duration, scanHistories_skip (h :: hs2) hnone]
  simp only [scanHistories, hitems,
    scanItems_in_progress_then_terminal h.created pre mid post none (Or.inl rfl)
      hipf hips htmf htms]
  rw [sub_self, zero_div]

theorem c10_same_history_zero_witness :
    get_in_progress_duration
      ([] ++ (⟨5, [⟨"status", "In Progress"⟩, ⟨"status", "Closed"⟩]⟩ : History) :: []) =
      some 0 :=
  c10_same_history_zero [] [] ⟨5, [⟨"status", "In Progress"⟩, ⟨"status", "Closed"⟩]⟩
    [] [] [] ⟨"status", "In Progress"⟩ ⟨"status", "Closed"⟩
    (by intro h' hh'; exact absurd hh' (List.not_mem_nil h'))
    rfl rfl rfl rfl rfl

/-! ### Pagination -/

theorem fetchLoop_continue {α : Type} (respond : Nat → List α × Nat)
    (maxR fuel startAt : Nat) (h : ¬ (respond startAt).2 ≤ startAt + maxR) :
    fetchLoop respond maxR (fuel + 1) startAt =
      ((respond startAt).1 ++ (fetchLoop respond maxR fuel (startAt + maxR)).1,
       startAt :: (fetchLoop respond maxR fuel (startAt + maxR)).2) := by
  simp only [fetchLoop]
  rw [if_neg h]

theorem fetchLoop_stop {α : Type} (respond : Nat → List α × Nat)
    (maxR fuel startAt : Nat) (h : (respond startAt).2 ≤ startAt + maxR) :
    fetchLoop respond maxR (fuel + 1) startAt = ((respond startAt).1, [startAt]) := by
  simp only [fetchLoop]
  rw [if_pos h]

/-- C4: against a server that reports `total = 2500` on every page and
returns `min 1000 (2500 - offset)` issues per page, `fetch_issues` with page
size 1000 (and enough loop fuel) requests exactly the offsets 0, 1000, 2000
and accumulates exactly 2500 issues: the loop starts at offset 0, advances by
the page size, and stops exactly when offset + page size ≥ total. -/
theorem c4_pagination {α : Type} (respond : Nat → List α × Nat)
    (htot : ∀ off, (respond off).2 = 2500)
    (hlen : ∀ off, (respond off).1.length = min 1000 (2500 - off))
    (fuel : Nat) (hfuel : 3 ≤ fuel) :
    (fetch_issues respond 1000 fuel).2 = [0, 1000, 2000] ∧
    (fetch_issues respond 1000 fuel).1.length = 2500 := by
  obtain ⟨k, rfl⟩ : ∃ k, fuel = k + 3 := ⟨fuel - 3, by omega⟩
  have h0 : ¬ (respond 0).2 ≤ 0 + 1000 := by rw [htot]; omega
  have h1 : ¬ (respond 1000).2 ≤ 1000 + 1000 := by rw [htot]; omega
  have h2 : (respond 2000).2 ≤ 2000 + 1000 := by rw [htot]; omega
  have e : fetch_issues respond 1000 (k + 3) =
      ((respond 0).1 ++ ((respond 1000).1 ++ (respond 2000).1), [0, 1000, 2000]) := by
    rw [fetch_issues, show k + 3 = (k + 2) + 1 from rfl, fetchLoop_continue respond 1000 _ 0 h0,
      show 0 + 1000 = 1000 from rfl, show k + 2 = (k + 1) + 1 from rfl,
      fetchLoop_continue respond 1000 _ 1000 h1,
      show 1000 + 1000 = 2000 from rfl,
      fetchLoop_stop respond 1000 k 2000 h2]
  rw [e]
  refine ⟨rfl, ?_⟩
  simp only [List.length_append, hlen]
  norm_num

theorem c4_pagination_witness :
    3 ≤ 3 ∧
    (fetch_issues c4Respond 1000 3).2 = [0, 1000, 2000] ∧
    (fetch_issues c4Respond 1000 3).1.length = 2500 :=
  ⟨le_refl 3,
   (c4_pagination c4Respond (fun _ => rfl)
     (fun off => by simp [c4Respond]) 3 (le_refl 3)).1,
   (c4_pagination c4Respond (fun _ => rfl)
     (fun off => by simp [c4Respond]) 3 (le_refl 3)).2⟩

/-! ### Characterization of the issue-commit map -/

theorem lookupMap_appendToMap (m : List (String × List Commit)) (kk key : String) (c : Commit) :
    lookupMap (appendToMap m kk c) key =
      if kk = key then some (lookupCommits m key ++ [c]) else lookupMap m key := by
  induction m with
  | nil =>
    by_cases h : kk = key <;> simp [appendToMap, lookupMap, lookupCommits, h]
  | cons p rest ih =>
    obtain ⟨k0, v⟩ := p
    simp only [appendToMap]
    by_cases h0 : k0 = kk
    · subst h0
      by_cases hk : k0 = key
      · subst hk
        simp [lookupMap, lookupCommits]
      · simp [lookupMap, hk]
    · rw [if_neg h0]
      by_cases hk : k0 = key
      · subst hk
        have hkk : kk ≠ k0 := fun he => h0 he.symm
        simp [lookupMap, hkk]
      · simp [lookupMap, hk, ih, lookupCommits]

theorem lookupCommits_appendToMap (m : List (String × List Commit)) (kk key : String)
    (c : Commit) :
    lookupCommits (appendToMap m kk c) key =
      if kk = key then lookupCommits m key ++ [c] else lookupCommits m key := by
  rw [lookupCommits, lookupMap_appendToMap]
  by_cases h : kk = key <;> simp [h, lookupCommits]

theorem lookupCommits_foldAppend (ks : List String) (m : List (String × List Commit))
    (c : Commit) (key : String) :
    lookupCommits (ks.foldl (fun m2 k => appendToMap m2 k c) m) key =
      lookupCommits m key ++ List.replicate (ks.count key) c := by
  induction ks generalizing m with
  | nil => simp
  | cons k0 ks ih =>
    rw [List.foldl_cons, ih, lookupCommits_appendToMap, List.count_cons]
    by_cases h : k0 = key
    · simp [h, List.replicate_succ, List.append_assoc]
    · simp [h]

theorem lookupMap_foldAppend_eq_none (ks : List String) (m : List (String × List Commit))
    (c : Commit) (key : String) :
    lookupMap (ks.foldl (fun m2 k => appendToMap m2 k c) m) key = none ↔
      lookupMap m key = none ∧ key ∉ ks := by
  induction ks generalizing m with
  | nil => simp
  | cons k0 ks ih =>
    rw [List.foldl_cons, ih, lookupMap_appendToMap]
    by_cases h : k0 = key
    · simp [h]
    · simp only [if_neg h, List.mem_cons]
      constructor
      · rintro ⟨hm, hks⟩
        exact ⟨hm, fun hor => hor.elim (fun he => h he.symm) hks⟩
      · rintro ⟨hm, hnot⟩
        exact ⟨hm, fun hks => hnot (Or.inr hks)⟩

theorem lookupCommits_mapFold (commits : List Commit) (jiraKey : String)
    (m : List (String × List Commit)) (key : String) :
    lookupCommits
      (commits.foldl
        (fun m2 c => (findIssueKeys jiraKey c.message).foldl (fun m3 k => appendToMap m3 k c) m2)
        m) key =
      lookupCommits m key ++
        commits.flatMap
          (fun c => List.replicate ((findIssueKeys jiraKey c.message).count key) c) := by
  induction commits generalizing m with
  | nil => simp
  | cons c cs ih =>
    rw [List.foldl_cons, ih, lookupCommits_foldAppend, List.flatMap_cons, List.append_assoc]

theorem lookupCommits_build (jiraKey : String) (commits : List Commit) (key : String) :
    lookupCommits (map_issues_to_commits jiraKey commits) key =
      commits.flatMap
        (fun c => List.replicate ((findIssueKeys jiraKey c.message).count key) c) := by
  rw [map_issues_to_commits, lookupCommits_mapFold]
  simp [lookupCommits, lookupMap]

theorem lookupMap_mapFold_eq_none (commits : List Commit) (jiraKey : String)
    (m : List (String × List Commit)) (key : String) :
    lookupMap
      (commits.foldl
        (fun m2 c => (findIssueKeys jiraKey c.message).foldl (fun m3 k => appendToMap m3 k c) m2)
        m) key = none ↔
      lookupMap m key = none ∧ ∀ c ∈ commits, key ∉ findIssueKeys jiraKey c.message := by
  induction commits generalizing m with
  | nil => simp
  | cons c cs ih =>
    rw [List.foldl_cons, ih, lookupMap_foldAppend_eq_none]
    simp [and_assoc]

theorem lookupMap_build_eq_none (jiraKey : String) (commits : List Commit) (key : String) :
    lookupMap (map_issues_to_commits jiraKey commits) key = none ↔
      ∀ c ∈ commits, key ∉ findIssueKeys jiraKey c.message := by
  rw [map_issues_to_commits, lookupMap_mapFold_eq_none]
  simp [lookupMap]

theorem appendToMap_values_ne_nil {m : List (String × List Commit)}
    (h : ∀ p ∈ m, p.2 ≠ []) (kk : String) (c : Commit) :
    ∀ p ∈ appendToMap m kk c, p.2 ≠ [] := by
  induction m with
  | nil =>
    intro p hp
    rw [appendToMap, List.mem_singleton] at hp
    subst hp
    exact List.cons_ne_nil c []
  | cons q rest ih =>
    obtain ⟨k0, v⟩ := q
    have hrest : ∀ p ∈ rest, p.2 ≠ [] := fun p hp => h p (List.mem_cons_of_mem _ hp)
    intro p hp
    rw [appendToMap] at hp
    by_cases h0 : k0 = kk
    · rw [if_pos h0, List.mem_cons] at hp
      rcases hp with rfl | hp
      · exact List.append_ne_nil_of_right_ne_nil v (List.cons_ne_nil c [])
      · exact hrest p hp
    · rw [if_neg h0, List.mem_cons] at hp
      rcases hp with rfl | hp
      · exact h (k0, v) (List.mem_cons_self _ _)
      · exact ih hrest p hp

theorem foldAppend_values_ne_nil {m : List (String × List Commit)}
    (h : ∀ p ∈ m, p.2 ≠ []) (ks : List String) (c : Commit) :
    ∀ p ∈ ks.foldl (fun m2 k => appendToMap m2 k c) m, p.2 ≠ [] := by
  induction ks generalizing m with
  | nil => exact h
  | cons k0 ks ih =>
    rw [List.foldl_cons]
    exact ih (appendToMap_values_ne_nil h k0 c)

theorem build_values_ne_nil (jiraKey : String) (commits : List Commit) :
    ∀ p ∈ map_issues_to_commits jiraKey commits, p.2 ≠ [] := by
  rw [map_issues_to_commits]
  generalize hm : ([] : List (String × List Commit)) = m0
  have h0 : ∀ p ∈ m0, p.2 ≠ [] := by rw [← hm]; intro p hp; exact absurd hp (List.not_mem_nil p)
  clear hm
  induction commits generalizing m0 with
  | nil => exact h0
  | cons c cs ih =>
    rw [List.foldl_cons]
    exact ih _ (foldAppend_values_ne_nil h0 _ c)

/-- C7: if a commit's message matches the issue-key pattern `n` times with
the same issue key, `map_issues_to_commits` appends that commit to the key's
list once per match, so the commit occurs at least `n` times in that key's
list (inflating `num_commits` and the churn sums computed from it). -/
theorem c7_duplicate_matches_append_repeatedly (jiraKey : String) (commits : List Commit)
    (c : Commit) (key : String) (hc : c ∈ commits) :
    (findIssueKeys jiraKey c.message).count key ≤
      (lookupCommits (map_issues_to_commits jiraKey commits) key).count c := by
  rw [lookupCommits_build]
  obtain ⟨l1, l2, rfl⟩ := List.mem_iff_append.mp hc
  rw [List.flatMap_append, List.flatMap_cons, List.count_append, List.count_append,
    List.count_replicate_self]
  omega

theorem c7_duplicate_matches_append_repeatedly_witness :
    c7Commit ∈ [c7Commit] ∧
    (findIssueKeys "AB" c7Commit.message).count "AB-7" = 2 ∧
    (findIssueKeys "AB" c7Commit.message).count "AB-7" ≤
      (lookupCommits (map_issues_to_commits "AB" [c7Commit]) "AB-7").count c7Commit :=
  ⟨List.mem_singleton.mpr rfl, by decide,
   c7_duplicate_matches_append_repeatedly "AB" [c7Commit] c7Commit "AB-7"
     (List.mem_singleton.mpr rfl)⟩

/-- C8: the issue-commit map has an entry only for keys that matched in at
least one commit message — a key that never appears is absent (no entry,
rather than an empty list), and every value list in the map is non-empty. -/
theorem c8_map_entries_nonempty (jiraKey : String) (commits : List Commit) :
    (∀ p ∈ map_issues_to_commits jiraKey commits, p.2 ≠ []) ∧
    ∀ key, lookupMap (map_issues_to_commits jiraKey commits) key = none ↔
      ∀ c ∈ commits, key ∉ findIssueKeys jiraKey c.message :=
  ⟨build_values_ne_nil jiraKey commits, fun key => lookupMap_build_eq_none jiraKey commits key⟩

theorem c8_map_entries_nonempty_witness :
    lookupMap (map_issues_to_commits "AB" [c7Commit]) "ZZ-9" = none ∧
    lookupMap (map_issues_to_commits "AB" [c7Commit]) "AB-7" ≠ none :=
  ⟨((c8_map_entries_nonempty "AB" [c7Commit]).2 "ZZ-9").mpr (by decide),
   fun hnone => by
     have := ((c8_map_entries_nonempty "AB" [c7Commit]).2 "AB-7").mp hnone
     exact absurd this (by decide)⟩

end Scrapper
